import Mathlib

/-!
# ViewerExample (magnum-examples, `src/viewer/ViewerExample.cpp`)

A shallow embedding of the viewer example: the constructor (exit codes and the
interleave loop), the frame-rate counters of `drawEvent` / `keyEvent`, the wheel
dolly of `mouseEvent`, and the arcball of `mouseMoveEvent` / `positionOnSphere`.

Numbers: `GLfloat` and `double` values are elements of an ordered field `α`
(exact arithmetic, the rationals or the reals); `sqrt` and `acos` of the C
library are parameters. The wheel case of `mouseEvent` is given a second time
with every `GLfloat` operation rounded to binary32. `size_t` counters are
natural numbers reduced modulo `2 ^ 64`. C++ vectors are lists.
-/

namespace Magnum.Examples

/-! ## Constructor: checks and interleaving (lines 43-112) -/

/-- The local `struct VertexData` of the constructor (lines 88-91): one vertex
position and one normal. -/
structure VertexData (P N : Type) where
  vertex : P
  normal : N
  deriving DecidableEq, Repr

/-- Modelled from the spec: the accessors of `Trade::MeshData` (header not in
src/) that the constructor calls. `indices` is the pointer returned by
`indices()` (`none` is the null pointer), `vertices` and `normals` are the
vertex and normal arrays, `vertices(i)` and `normals(i)` being their `i`-th
entries and `vertexArrayCount()` the number of vertex arrays. -/
structure MeshData (P N : Type) where
  indices : Option (List Nat)
  vertices : List (List P)
  normals : List (List N)

/-- Number of vertex arrays, `MeshData::vertexArrayCount()`. -/
def MeshData.vertexArrayCount {P N : Type} (data : MeshData P N) : Nat :=
  data.vertices.length

/-- Modelled from the spec: what the plugin manager and the importer
(`PluginManager`, `Trade::AbstractImporter`, headers not in src/) answer to the
calls of the constructor, in call order. -/
structure Importer (P N : Type) where
  /-- `features() & OpenFile` is non-zero. -/
  featuresOpenFile : Bool
  /-- `open(argv[1])` succeeds. -/
  opens : Bool
  meshCount : Nat
  /-- `mesh(0)`, `none` being the null pointer. -/
  mesh0 : Option (MeshData P N)

/-- Everything the constructor reads from outside. -/
structure Startup (P N : Type) where
  argc : Int
  /-- `manager.load("ColladaImporter") == LoadOk`. -/
  loadOk : Bool
  /-- `manager.instance("ColladaImporter")`, `none` being the null pointer. -/
  colladaImporter : Option (Importer P N)

/-- Result of the interleave loop: the vector built, or an element access
outside an array (undefined behaviour in C++) at the given loop index. -/
inductive Interleaved (P N : Type) where
  | records (interleavedMeshData : List (VertexData P N))
  | readPastEnd (i : Nat)
  deriving DecidableEq, Repr

/-- The loop of lines 94-99, `for(size_t i = 0; i != size; ++i) push_back(...)`.
The first argument is the number of iterations left, `size - i`, so it is `0`
exactly when `i == size`; `acc` is `interleavedMeshData` so far. Each iteration
reads `(*vertices(0))[i]` and `(*normals(0))[i]`. -/
def interleaveLoop {P N : Type} (vertices : List P) (normals : List N) :
    Nat → Nat → List (VertexData P N) → Interleaved P N
  | 0, _, acc => .records acc
  | k + 1, i, acc =>
    match vertices[i]?, normals[i]? with
    | some v, some n => interleaveLoop vertices normals k (i + 1) (acc ++ [⟨v, n⟩])
    | _, _ => .readPastEnd i

/-- Lines 92-99: the loop run from `i = 0` on an empty vector, for
`vertices(0)->size()` iterations. There is no comparison of the two sizes. -/
def interleave {P N : Type} (vertices : List P) (normals : List N) : Interleaved P N :=
  interleaveLoop vertices normals vertices.length 0 []

/-- How the constructor ends. -/
inductive Outcome (P N : Type) where
  /-- `exit(code)`. -/
  | exit (code : Nat)
  /-- An access outside an array, or through a null pointer, while
  interleaving. -/
  | undefinedRead (i : Nat)
  /-- The arguments of `builder.setData`: the interleaved vertex data and the
  index array. -/
  | built (interleavedMeshData : List (VertexData P N)) (indices : List Nat)
  deriving DecidableEq, Repr

/-- The constructor, lines 43-112. `tipsify indices vertexCount cacheSize` is the
index array as `MeshTools::tipsify` (not in src/) leaves it. The pointer
`normals(0)` is dereferenced only in the body of the interleave loop: when it is
null, an empty vertex array reaches the builder with no record and a non-empty
one reads through the null pointer at `i = 0`. -/
def ViewerExample {P N : Type} (tipsify : List Nat → Nat → Nat → List Nat)
    (s : Startup P N) : Outcome P N :=
  if s.argc ≠ 2 then .exit 0
  else if s.loadOk ≠ true then .exit 1
  else match s.colladaImporter with
  | none => .exit 2
  | some importer =>
    if ¬ importer.featuresOpenFile then .exit 3
    else if ¬ importer.opens then .exit 4
    else if importer.meshCount = 0 then .exit 5
    else match importer.mesh0 with
    | none => .exit 6
    | some data =>
      match data.indices with
      | none => .exit 6
      | some indices =>
        if data.vertexArrayCount = 1 then
          match data.vertices[0]? with
          | none => .undefinedRead 0
          | some vertices0 =>
            let optimized := tipsify indices vertices0.length 24
            match data.normals[0]? with
            | some normals0 =>
              match interleave vertices0 normals0 with
              | .records interleavedMeshData => .built interleavedMeshData optimized
              | .readPastEnd i => .undefinedRead i
            | none =>
              if vertices0.length = 0 then .built [] optimized else .undefinedRead 0
        else .exit 6

/-- Exit code of an outcome, `none` when the constructor does not exit. -/
def Outcome.exitCode {P N : Type} : Outcome P N → Option Nat
  | .exit code => some code
  | _ => none

/-- The checks of the exit-code contract in the order the contract lists them,
each with its exit code, written from the contract's words: a check is `true`
when it fails. Checks on the importer or mesh are read as not failing while the
importer is absent (an earlier check fails then). -/
def exitCodeChecks {P N : Type} (s : Startup P N) : List (Bool × Nat) :=
  [ (decide (s.argc ≠ 2), 0),
    (!s.loadOk, 1),
    (s.colladaImporter.isNone, 2),
    (s.colladaImporter.any (fun importer => !importer.featuresOpenFile), 3),
    (s.colladaImporter.any (fun importer => !importer.opens), 4),
    (s.colladaImporter.any (fun importer => importer.meshCount == 0), 5),
    (s.colladaImporter.any (fun importer =>
        match importer.mesh0 with
        | none => true
        | some data => data.indices.isNone || data.vertexArrayCount != 1), 6) ]

/-- Exit code of the first failing check of `exitCodeChecks`, `none` when every
check passes. -/
def firstFailingCheck {P N : Type} (s : Startup P N) : Option Nat :=
  ((exitCodeChecks s).find? (fun c => c.1)).map (fun c => c.2)

/-! ## Vectors (the operations of Magnum's `Math::Vector` used by the viewer) -/

/-- Two-component vector, `Math::Vector2`. -/
@[ext]
structure Vector2 (α : Type) where
  x : α
  y : α
  deriving DecidableEq, Repr

/-- Three-component vector, `Math::Vector3`. -/
@[ext]
structure Vector3 (α : Type) where
  x : α
  y : α
  z : α
  deriving DecidableEq, Repr

section Vectors

variable {α : Type} [LinearOrderedField α]

/-- Dot product of two-component vectors. -/
def Vector2.dot (a b : Vector2 α) : α := a.x * b.x + a.y * b.y

/-- The call `Vector2::length()`: square root of the dot product with itself. -/
def Vector2.length (sqrt : α → α) (a : Vector2 α) : α := sqrt (a.dot a)

/-- Default constructor `Vector3()`: the zero vector. -/
def Vector3.zero : Vector3 α := ⟨0, 0, 0⟩

/-- Constructor `Vector3(const Vector2&, z)`. -/
def Vector3.ofVector2 (xy : Vector2 α) (z : α) : Vector3 α := ⟨xy.x, xy.y, z⟩

/-- Conversion of a `Vector2` to a `Vector3`, which the conditional expression
of `positionOnSphere` applies to `position` so that both branches are `Vector3`:
the constructor `Vector3(const Vector2&, z)` of the Magnum library
(`Math/Vector3.h`, not in src/) with its default `z = 0`. -/
def Vector3.convert (xy : Vector2 α) : Vector3 α := Vector3.ofVector2 xy 0

/-- Dot product, written `a*b` in the source. -/
def Vector3.dot (a b : Vector3 α) : α := a.x * b.x + a.y * b.y + a.z * b.z

/-- Cross product `Vector3::cross(a, b)`. -/
def Vector3.cross (a b : Vector3 α) : Vector3 α :=
  ⟨a.y * b.z - a.z * b.y, a.z * b.x - a.x * b.z, a.x * b.y - a.y * b.x⟩

/-- The call `Vector3::length()`. -/
def Vector3.length (sqrt : α → α) (a : Vector3 α) : α := sqrt (a.dot a)

/-- The call `setY`. -/
def Vector3.setY (a : Vector3 α) (y : α) : Vector3 α := ⟨a.x, y, a.z⟩

/-- The call `normalized()`: the vector divided by its length. -/
def Vector3.normalized (sqrt : α → α) (a : Vector3 α) : Vector3 α :=
  ⟨a.x / a.length sqrt, a.y / a.length sqrt, a.z / a.length sqrt⟩

end Vectors

/-! ## Viewer state and events (lines 114-234) -/

/-- Modelled from the spec: the keys of `AbstractExample::Key` (header not in
src/) that `keyEvent` switches on. -/
inductive Key where
  | Up | Down | Left | Right | PageUp | PageDown | Home | End
  deriving DecidableEq, Repr

/-- Modelled from the spec: the buttons of `AbstractExample::MouseButton`
(header not in src/): the three that `mouseEvent` names, and `Other` for every
button that falls to its `default` branch. -/
inductive MouseButton where
  | Left | WheelUp | WheelDown | Other
  deriving DecidableEq, Repr

/-- Modelled from the spec: the two values of `AbstractExample::MouseState`
(header not in src/). -/
inductive MouseState where
  | Up | Down
  deriving DecidableEq, Repr

/-- What an event handler sends out: a line printed on `cout`, or a rotation
of the viewed object. -/
inductive Output (α : Type) where
  /-- Line 124: `frames`, `duration` and the rate `frames/duration`. -/
  | fpsLine (frames : Nat) (duration : α) (rate : α)
  /-- Line 167: `totalmeasurecount` and `totalfps/totalmeasurecount`; the
  quotient is `none` when the count is `0` (not a finite number). -/
  | averageLine (measures : Nat) (average : Option α)
  /-- The call `o->rotate(angle, axis, global)`. -/
  | rotate (angle : α) (axis : Vector3 α) (global : Bool)
  deriving DecidableEq, Repr

/-- The members of `ViewerExample` that the event handlers read and write,
with the camera reduced to what they use of it: `cameraZ` is
`camera->transformation().at(3).z()`, `near` is `camera->near()` and `viewport`
is `camera->viewport()`. `before` is a time in seconds. -/
structure Viewer (α : Type) where
  cameraZ : α
  near : α
  viewport : Vector2 Int
  wireframe : Bool
  fps : Bool
  before : α
  frames : Nat
  totalfps : α
  totalmeasurecount : Nat
  previousPosition : Vector3 α
  deriving DecidableEq, Repr

section Events

variable {α : Type} [LinearOrderedField α]

/-- Increment of a `size_t`, 64 bits wide. -/
def sizeInc (n : Nat) : Nat := (n + 1) % 2 ^ 64

/-- Quotient of a `double` by a `size_t`, `none` when the divisor is `0`. -/
def divBySize (x : α) (n : Nat) : Option α :=
  if n = 0 then none else some (x / (n : α))

/-- The call `camera->translate(0, 0, dz)` on an unrotated camera, in exact
arithmetic: the sum `z + dz` is not rounded (`Viewer.translateZBinary32` rounds
it). -/
def Viewer.translateZ (v : Viewer α) (dz : α) : Viewer α :=
  { v with cameraZ := v.cameraZ + dz }

/-- First block of `drawEvent`, lines 120-132; `now` is the clock reading. -/
def closeWindow (now : α) (v : Viewer α) : Viewer α × Option (Output α) :=
  if v.fps then
    let duration := now - v.before
    if duration > 3.5 then
      ({ v with
          totalfps := v.totalfps + (v.frames : α) / duration
          before := now
          frames := 0
          totalmeasurecount := sizeInc v.totalmeasurecount },
        some (.fpsLine v.frames duration ((v.frames : α) / duration)))
    else (v, none)
  else (v, none)

/-- Last block of `drawEvent`, lines 136-139. -/
def countFrame (v : Viewer α) : Viewer α :=
  if v.fps then { v with frames := sizeInc v.frames } else v

/-- The handler `drawEvent`, lines 119-140. -/
def drawEvent (now : α) (v : Viewer α) : Viewer α × Option (Output α) :=
  let r := closeWindow now v
  (countFrame r.1, r.2)

/-- The handler `keyEvent`, lines 142-180; `PI` is the constant of that name and
`now` the clock reading. -/
def keyEvent (PI : α) (now : α) (key : Key) (v : Viewer α) : Viewer α × Option (Output α) :=
  match key with
  | .Up => (v, some (.rotate (PI / 18) ⟨-1, 0, 0⟩ true))
  | .Down => (v, some (.rotate (PI / 18) ⟨1, 0, 0⟩ true))
  | .Left => (v, some (.rotate (PI / 18) ⟨0, -1, 0⟩ false))
  | .Right => (v, some (.rotate (PI / 18) ⟨0, 1, 0⟩ false))
  | .PageUp => (v.translateZ (-0.5), none)
  | .PageDown => (v.translateZ 0.5, none)
  | .Home => ({ v with wireframe := !v.wireframe }, none)
  | .End =>
    if v.fps then
      ({ v with fps := !v.fps, frames := 0, totalmeasurecount := 0, totalfps := 0 },
        some (.averageLine v.totalmeasurecount (divBySize v.totalfps v.totalmeasurecount)))
    else
      ({ v with before := now, fps := !v.fps, frames := 0, totalmeasurecount := 0,
                totalfps := 0 }, none)

/-- Lines 226-228 of `positionOnSphere`: the pixel position scaled to the
viewport. -/
def normalizedPosition (viewport : Vector2 Int) (pos : Vector2 Int) : Vector2 α :=
  ⟨(pos.x : α) * 2 / (viewport.x : α) - 1, (pos.y : α) * 2 / (viewport.y : α) - 1⟩

/-- Lines 226-232 of `positionOnSphere`: the vector `result` on which
`normalized()` is called. -/
def positionOnSphereResult (sqrt : α → α) (viewport : Vector2 Int) (pos : Vector2 Int) :
    Vector3 α :=
  let position : Vector2 α := normalizedPosition viewport pos
  let length := position.length sqrt
  let result := if length > 1 then Vector3.convert position
    else Vector3.ofVector2 position (1 - length)
  result.setY (-result.y)

/-- The method `positionOnSphere`, lines 225-234. -/
def positionOnSphere (sqrt : α → α) (viewport : Vector2 Int) (pos : Vector2 Int) : Vector3 α :=
  (positionOnSphereResult sqrt viewport pos).normalized sqrt

/-- Lines 192-200 of `mouseEvent`: the translation a wheel press applies, in
exact arithmetic: neither the constants nor the products are rounded
(`wheelDistanceBinary32` rounds them). -/
def wheelDistance (button : MouseButton) (v : Viewer α) : α :=
  let distance := v.cameraZ - 0 - v.near
  if button = MouseButton.WheelUp then distance * (1 - 1 / 0.85)
  else distance * (1 - 0.85)

/-- The handler `mouseEvent`, lines 182-207. -/
def mouseEvent (sqrt : α → α) (button : MouseButton) (state : MouseState)
    (pos : Vector2 Int) (v : Viewer α) : Viewer α :=
  match button with
  | .Left =>
    if state = MouseState.Down then
      { v with previousPosition := positionOnSphere sqrt v.viewport pos }
    else { v with previousPosition := Vector3.zero }
  | .WheelUp | .WheelDown =>
    if state = MouseState.Up then v
    else v.translateZ (wheelDistance button v)
  | .Other => v

/-- The handler `mouseMoveEvent`, lines 209-222. -/
def mouseMoveEvent (sqrt acos : α → α) (pos : Vector2 Int) (v : Viewer α) :
    Viewer α × Option (Output α) :=
  let currentPosition := positionOnSphere sqrt v.viewport pos
  let axis := Vector3.cross v.previousPosition currentPosition
  if v.previousPosition.length sqrt < 0.001 ∨ axis.length sqrt < 0.001 then (v, none)
  else
    let angle := acos (v.previousPosition.dot currentPosition)
    ({ v with previousPosition := currentPosition }, some (.rotate angle axis true))

/-- A run of `drawEvent`s at the given clock readings: the final state and the
rates printed, in order. -/
def drawEvents : List α → Viewer α → Viewer α × List α
  | [], v => (v, [])
  | now :: later, v =>
    let r := drawEvent now v
    let rest := drawEvents later r.1
    match r.2 with
    | some (.fpsLine _ _ rate) => (rest.1, rate :: rest.2)
    | _ => rest

/-- Camera distance to the near plane, `z - near`. -/
def Viewer.distance (v : Viewer α) : α := v.cameraZ - v.near

/-- The state after `k` wheel presses of one button. -/
def wheelPresses (sqrt : α → α) (button : MouseButton) (pos : Vector2 Int) :
    Nat → Viewer α → Viewer α
  | 0, v => v
  | k + 1, v => wheelPresses sqrt button pos k (mouseEvent sqrt button MouseState.Down pos v)

end Events

/-! ## Binary32 arithmetic (`GLfloat`)

The wheel case of `mouseEvent` once more, with every `GLfloat` operation rounded
to binary32 (IEEE 754 single precision, round to nearest, ties to even). Values
are rationals; a binary32 number is a rational that `binary32` leaves as it is.
Magnitudes beyond the largest finite binary32 number are not treated (none
occurs below). -/

/-- Nearest integer to a rational, a tie going to the even neighbour. -/
def roundHalfEven (q : ℚ) : ℤ :=
  let f := ⌊q⌋
  let r := q - f
  if r < 1 / 2 then f
  else if 1 / 2 < r then f + 1
  else if f % 2 = 0 then f else f + 1

/-- The power `2 ^ e` for an integer exponent. -/
def pow2 (e : ℤ) : ℚ := if 0 ≤ e then (2 ^ e.toNat : ℕ) else 1 / (2 ^ (-e).toNat : ℕ)

/-- Halvings of `n` until it is below 2, at most `fuel` of them. -/
def log2Aux : Nat → Nat → Nat
  | 0, _ => 0
  | fuel + 1, n => if 2 ≤ n then log2Aux fuel (n / 2) + 1 else 0

/-- Position of the highest set bit of `n` (`0` for `n = 0`); `n` halvings
always suffice. -/
def log2 (n : Nat) : Nat := log2Aux n n

/-- The binary exponent of a non-zero rational: the `e` with
`2 ^ e ≤ |q| < 2 ^ (e + 1)`. -/
def exponent (q : ℚ) : ℤ :=
  let e0 : ℤ := (log2 q.num.natAbs : ℤ) - (log2 q.den : ℤ)
  if pow2 e0 ≤ |q| then e0 else e0 - 1

/-- Rounding to binary32: 24 significant bits, the spacing never below
`2 ^ (-149)` (subnormal numbers), round to nearest, ties to even. -/
def binary32 (q : ℚ) : ℚ :=
  if q = 0 then 0
  else
    let quantum := pow2 (max (exponent q - 23) (-149))
    (roundHalfEven (q / quantum) : ℚ) * quantum

/-- Lines 192-199 of `mouseEvent` in binary32: the subtractions, the constants
`0.85f`, `1/0.85f`, `1 - 1/0.85f`, `1 - 0.85f` and the product are each
rounded. -/
def wheelDistanceBinary32 (button : MouseButton) (v : Viewer ℚ) : ℚ :=
  let distance := binary32 (binary32 (v.cameraZ - 0) - v.near)
  if button = MouseButton.WheelUp then
    binary32 (distance * binary32 (1 - binary32 (1 / binary32 0.85)))
  else binary32 (distance * binary32 (1 - binary32 0.85))

/-- The call `camera->translate(0, 0, dz)` on an unrotated camera in binary32:
the sum `z + dz` is rounded. -/
def Viewer.translateZBinary32 (v : Viewer ℚ) (dz : ℚ) : Viewer ℚ :=
  { v with cameraZ := binary32 (v.cameraZ + dz) }

/-- The `WheelUp` / `WheelDown` case of `mouseEvent`, lines 188-204, in
binary32; `button` is one of these two. -/
def wheelEventBinary32 (button : MouseButton) (state : MouseState) (v : Viewer ℚ) : Viewer ℚ :=
  if state = MouseState.Up then v
  else v.translateZBinary32 (wheelDistanceBinary32 button v)

/-- The state after `k` wheel presses of one button, in binary32. -/
def wheelPressesBinary32 (button : MouseButton) : Nat → Viewer ℚ → Viewer ℚ
  | 0, v => v
  | k + 1, v => wheelPressesBinary32 button k (wheelEventBinary32 button MouseState.Down v)

/-! ## Sample states -/

/-- An idle viewer, as the constructor leaves the camera (`z = 5`,
`near = 0.001`). -/
def idle : Viewer ℚ :=
  { cameraZ := 5, near := 1 / 1000, viewport := ⟨800, 600⟩, wireframe := false, fps := false,
    before := 0, frames := 0, totalfps := 0, totalmeasurecount := 0,
    previousPosition := Vector3.zero }

/-- A measuring viewer with 70 frames counted since the window start at time
`0`, nothing accumulated yet. -/
def measuring70 : Viewer ℚ :=
  { cameraZ := 5, near := 1 / 1000, viewport := ⟨800, 600⟩, wireframe := false, fps := true,
    before := 0, frames := 70, totalfps := 0, totalmeasurecount := 0,
    previousPosition := Vector3.zero }

/-- The viewer as the constructor leaves it in binary32: `z = 5` and
`near = 0.001f`, the binary32 number nearest to 0.001. -/
def constructed : Viewer ℚ :=
  { idle with near := binary32 0.001 }

/-- The camera two binary32 steps in front of the near plane:
`near = 0.001f = 8589935 * 2 ^ (-33)` and `z = 8589937 * 2 ^ (-33)`. -/
def stalled : Viewer ℚ :=
  { constructed with cameraZ := 8589937 / 2 ^ 33 }

/-! # Theorems -/

/-! ### Facts about the interleave loop -/


theorem interleaveLoop_records {P N : Type} (vertices : List P) (normals : List N) :
    ∀ (k i : Nat) (acc : List (VertexData P N)),
      i + k = vertices.length → vertices.length ≤ normals.length →
      interleaveLoop vertices normals k i acc
        = .records (acc ++ List.zipWith VertexData.mk (vertices.drop i) (normals.drop i)) := by
  intro k
  induction k with
  | zero =>
    intro i acc hik _
    have h : vertices.drop i = [] := List.drop_eq_nil_of_le (by omega)
    simp [interleaveLoop, h]
  | succ k ih =>
    intro i acc hik hle
    have hv : i < vertices.length := by omega
    have hn : i < normals.length := by omega
    rw [interleaveLoop, List.getElem?_eq_getElem hv, List.getElem?_eq_getElem hn]
    simp only
    rw [ih (i + 1) _ (by omega) hle, List.drop_eq_getElem_cons hv, List.drop_eq_getElem_cons hn,
      List.zipWith_cons_cons, List.append_assoc, List.singleton_append]

theorem interleave_eq_zipWith {P N : Type} (vertices : List P) (normals : List N)
    (hle : vertices.length ≤ normals.length) :
    interleave vertices normals = .records (List.zipWith VertexData.mk vertices normals) := by
  unfold interleave
  rw [interleaveLoop_records vertices normals vertices.length 0 [] (by omega) hle]
  simp

theorem interleaveLoop_readPastEnd {P N : Type} (vertices : List P) (normals : List N) :
    ∀ (k i : Nat) (acc : List (VertexData P N)),
      i + k = vertices.length → i ≤ normals.length → normals.length < vertices.length →
      interleaveLoop vertices normals k i acc = .readPastEnd normals.length := by
  intro k
  induction k with
  | zero => intro i acc hik hi hlt; omega
  | succ k ih =>
    intro i acc hik hi hlt
    have hv : i < vertices.length := by omega
    rw [interleaveLoop, List.getElem?_eq_getElem hv]
    by_cases hn : i < normals.length
    · rw [List.getElem?_eq_getElem hn]
      simp only
      exact ih (i + 1) _ (by omega) (by omega) hlt
    · have hi2 : i = normals.length := by omega
      rw [List.getElem?_eq_none (by omega)]
      simp [hi2]

/-- With fewer normals than positions the loop reads `(*normals(0))[i]` at
`i = normals(0)->size()`, outside the array. -/
theorem interleave_fewer_normals {P N : Type} (vertices : List P) (normals : List N)
    (hlt : normals.length < vertices.length) :
    interleave vertices normals = .readPastEnd normals.length :=
  interleaveLoop_readPastEnd vertices normals vertices.length 0 [] (by omega) (by omega) hlt


/-! ### Constructor -/

/-- C1. Interleaving round trip: for a position array and a normal array of
equal length the interleave loop builds exactly that many records, the `i`-th
being `(positions[i], normals[i])`; projecting the records on either field gives
the original array back; and the constructor hands the builder these records
together with the index array as `tipsify` left it, the loop not touching it. -/
theorem C1_interleave_round_trip {P N : Type} (tipsify : List Nat → Nat → Nat → List Nat)
    (indices : List Nat) (positions : List P) (normals : List N) (moreMeshes : Nat)
    (moreNormals : List (List N)) (hlen : positions.length = normals.length) :
    ∃ interleavedMeshData : List (VertexData P N),
      interleave positions normals = .records interleavedMeshData
      ∧ interleavedMeshData.length = positions.length
      ∧ (∀ (i : Nat) (hp : i < positions.length) (hn : i < normals.length),
          interleavedMeshData[i]? = some ⟨positions[i], normals[i]⟩)
      ∧ interleavedMeshData.map VertexData.vertex = positions
      ∧ interleavedMeshData.map VertexData.normal = normals
      ∧ ViewerExample tipsify
          ⟨2, true, some ⟨true, true, moreMeshes + 1,
            some ⟨some indices, [positions], normals :: moreNormals⟩⟩⟩
          = .built interleavedMeshData (tipsify indices positions.length 24) := by
  have hrec := interleave_eq_zipWith positions normals (le_of_eq hlen)
  refine ⟨List.zipWith VertexData.mk positions normals, hrec, ?_, ?_, ?_, ?_, ?_⟩
  · simp [hlen]
  · intro i hp hn
    simp [List.getElem?_zipWith, List.getElem?_eq_getElem hp, List.getElem?_eq_getElem hn]
  · apply List.ext_getElem?
    intro i
    by_cases hp : i < positions.length
    · have hn : i < normals.length := by omega
      simp [List.getElem?_zipWith, List.getElem?_eq_getElem hp, List.getElem?_eq_getElem hn]
    · have hn : ¬ i < normals.length := by omega
      simp [List.getElem?_zipWith, List.getElem?_eq_none (not_lt.mp hp)]
  · apply List.ext_getElem?
    intro i
    by_cases hp : i < positions.length
    · have hn : i < normals.length := by omega
      simp [List.getElem?_zipWith, List.getElem?_eq_getElem hp, List.getElem?_eq_getElem hn]
    · have hn : ¬ i < normals.length := by omega
      simp [List.getElem?_zipWith, List.getElem?_eq_none (not_lt.mp hp),
        List.getElem?_eq_none (not_lt.mp hn)]
  · simp [ViewerExample, MeshData.vertexArrayCount, hrec]

/-- Witness of C1 on two positions and two normals. -/
theorem C1_interleave_round_trip_witness :
    [10, 11].length = [20, 21].length
    ∧ ∃ interleavedMeshData : List (VertexData Nat Nat),
      interleave [10, 11] [20, 21] = .records interleavedMeshData
      ∧ interleavedMeshData.length = [10, 11].length
      ∧ (∀ (i : Nat) (hp : i < [10, 11].length) (hn : i < [20, 21].length),
          interleavedMeshData[i]? = some ⟨[10, 11][i], [20, 21][i]⟩)
      ∧ interleavedMeshData.map VertexData.vertex = [10, 11]
      ∧ interleavedMeshData.map VertexData.normal = [20, 21]
      ∧ ViewerExample (fun indices _ _ => indices.reverse)
          ⟨2, true, some ⟨true, true, 0 + 1,
            some ⟨some [0, 1, 0], [[10, 11]], [20, 21] :: []⟩⟩⟩
          = .built interleavedMeshData
              ((fun indices _ _ => indices.reverse) [0, 1, 0] [10, 11].length 24) :=
  ⟨rfl, C1_interleave_round_trip (fun indices _ _ => indices.reverse) [0, 1, 0] [10, 11]
    [20, 21] 0 [] rfl⟩

/-- C2, as stated, fails: with one position and two normals (lengths differ) the
interleave loop reports nothing and builds one record, dropping the second
normal, and the constructor goes on to the builder. -/
theorem C2_counterexample :
    [7].length ≠ [8, 9].length
    ∧ interleave [7] [8, 9] = .records [⟨7, 8⟩]
    ∧ ViewerExample (fun indices _ _ => indices)
        ⟨2, true, some ⟨true, true, 1, some ⟨some [0, 0, 0], [[7]], [[8, 9]]⟩⟩⟩
      = .built [⟨7, 8⟩] [0, 0, 0] := by
  decide

/-- C2, amended. The interleave loop compares no lengths: whenever there are at
least as many normals as positions (the lengths may differ) it builds exactly one
record per position, the `i`-th being `(positions[i], normals[i])`, leaves the
surplus normals out and the constructor passes the records on without exiting. -/
theorem C2_interleave_no_length_check {P N : Type} (tipsify : List Nat → Nat → Nat → List Nat)
    (indices : List Nat) (positions : List P) (normals : List N) (moreMeshes : Nat)
    (moreNormals : List (List N)) (hle : positions.length ≤ normals.length) :
    interleave positions normals
        = .records (List.zipWith VertexData.mk positions (normals.take positions.length))
    ∧ (List.zipWith VertexData.mk positions (normals.take positions.length)).length
        = positions.length
    ∧ (∀ (i : Nat) (hp : i < positions.length) (hn : i < normals.length),
        (List.zipWith VertexData.mk positions (normals.take positions.length))[i]?
          = some ⟨positions[i], normals[i]⟩)
    ∧ ViewerExample tipsify
        ⟨2, true, some ⟨true, true, moreMeshes + 1,
          some ⟨some indices, [positions], normals :: moreNormals⟩⟩⟩
      = .built (List.zipWith VertexData.mk positions (normals.take positions.length))
          (tipsify indices positions.length 24) := by
  have htake : List.zipWith VertexData.mk positions (normals.take positions.length)
      = List.zipWith VertexData.mk positions normals := by
    apply List.ext_getElem?
    intro i
    by_cases hp : i < positions.length
    · simp [List.getElem?_zipWith, List.getElem?_take, hp]
    · simp [List.getElem?_zipWith, List.getElem?_eq_none (not_lt.mp hp)]
  have hrec := interleave_eq_zipWith positions normals hle
  rw [htake]
  refine ⟨hrec, ?_, ?_, ?_⟩
  · simp [hle]
  · intro i hp hn
    simp [List.getElem?_zipWith, List.getElem?_eq_getElem hp, List.getElem?_eq_getElem hn]
  · simp [ViewerExample, MeshData.vertexArrayCount, hrec]

/-- Witness of the amended C2 on nine positions and ten normals. -/
theorem C2_interleave_no_length_check_witness :
    (List.range 9).length ≤ (List.range 10).length
    ∧ interleave (List.range 9) (List.range 10)
        = .records (List.zipWith VertexData.mk (List.range 9)
            ((List.range 10).take (List.range 9).length)) :=
  ⟨by decide,
    (C2_interleave_no_length_check (fun indices _ _ => indices) [] (List.range 9)
      (List.range 10) 0 [] (by decide)).1⟩

/-- C3. The exit code of the constructor is that of the first failing check, in
the order: argument count not 2 (0), plugin not loaded (1), no plugin instance
(2), no file-open feature (3), file not opened (4), no mesh (5), first mesh
null or without indices or with a vertex array count other than 1 (6); when
every check passes the constructor does not exit. -/
theorem C3_exit_code {P N : Type} (tipsify : List Nat → Nat → Nat → List Nat)
    (s : Startup P N) :
    (ViewerExample tipsify s).exitCode = firstFailingCheck s := by
  obtain ⟨argc, loadOk, colladaImporter⟩ := s
  by_cases hargc : argc = 2
  · cases loadOk
    · simp [ViewerExample, firstFailingCheck, exitCodeChecks, Outcome.exitCode, hargc]
    · cases colladaImporter with
      | none => simp [ViewerExample, firstFailingCheck, exitCodeChecks, Outcome.exitCode, hargc]
      | some importer =>
        obtain ⟨featuresOpenFile, opens, meshCount, mesh0⟩ := importer
        cases featuresOpenFile
        · simp [ViewerExample, firstFailingCheck, exitCodeChecks, Outcome.exitCode, hargc]
        · cases opens
          · simp [ViewerExample, firstFailingCheck, exitCodeChecks, Outcome.exitCode, hargc]
          · by_cases hcount : meshCount = 0
            · simp [ViewerExample, firstFailingCheck, exitCodeChecks, Outcome.exitCode, hargc,
                hcount]
            · cases mesh0 with
              | none =>
                simp [ViewerExample, firstFailingCheck, exitCodeChecks, Outcome.exitCode, hargc,
                  hcount]
              | some data =>
                obtain ⟨indices, vertices, normals⟩ := data
                cases indices with
                | none =>
                  simp [ViewerExample, firstFailingCheck, exitCodeChecks, Outcome.exitCode,
                    hargc, hcount]
                | some indices =>
                  by_cases hv : vertices.length = 1
                  · have hnone : firstFailingCheck (⟨argc, true, some ⟨true, true, meshCount,
                        some ⟨some indices, vertices, normals⟩⟩⟩ : Startup P N) = none := by
                      simp [firstFailingCheck, exitCodeChecks, MeshData.vertexArrayCount, hargc,
                        hcount, hv]
                    rw [hnone]
                    simp only [ViewerExample, MeshData.vertexArrayCount, hargc, hcount, hv]
                    simp only [ne_eq, not_true_eq_false, if_false, Bool.not_eq_true,
                      Bool.true_eq_false, if_true]
                    split
                    · rfl
                    · split
                      · split <;> rfl
                      · split <;> rfl
                  · simp [ViewerExample, firstFailingCheck, exitCodeChecks, Outcome.exitCode,
                      MeshData.vertexArrayCount, hargc, hcount, hv]
  · simp [ViewerExample, firstFailingCheck, exitCodeChecks, Outcome.exitCode, hargc]

/-! ### Frame-rate counters -/

section FrameRate

variable {α : Type} [LinearOrderedField α]

theorem drawEvent_fps (now : α) (v : Viewer α) : (drawEvent now v).1.fps = v.fps := by
  unfold drawEvent closeWindow countFrame
  by_cases hf : v.fps = true
  · by_cases hd : now - v.before > 3.5 <;> simp [hf, hd]
  · simp [hf]

theorem drawEvent_not_closing (now : α) (v : Viewer α) (hf : v.fps = true)
    (hd : ¬ now - v.before > 3.5) :
    drawEvent now v = ({ v with frames := sizeInc v.frames }, none) := by
  simp [drawEvent, closeWindow, countFrame, hf, hd]

theorem drawEvent_closing (now : α) (v : Viewer α) (hf : v.fps = true)
    (hd : now - v.before > 3.5) :
    drawEvent now v =
      ({ v with
          totalfps := v.totalfps + (v.frames : α) / (now - v.before)
          before := now
          frames := sizeInc 0
          totalmeasurecount := sizeInc v.totalmeasurecount },
        some (.fpsLine v.frames (now - v.before) ((v.frames : α) / (now - v.before)))) := by
  simp [drawEvent, closeWindow, countFrame, hf, hd]

theorem keyEvent_End_measuring (PI now : α) (v : Viewer α) (hv : v.fps = true) :
    (keyEvent PI now Key.End v).2
      = some (.averageLine v.totalmeasurecount (divBySize v.totalfps v.totalmeasurecount)) := by
  simp [keyEvent, hv]

/-- While measuring, a run of draws adds every printed rate to `totalfps` and
counts it in `totalmeasurecount` (a 64-bit counter). -/
theorem drawEvents_totals (times : List α) :
    ∀ v : Viewer α, v.fps = true → v.totalmeasurecount < 2 ^ 64 →
      (drawEvents times v).1.fps = true
      ∧ (drawEvents times v).1.totalfps = v.totalfps + (drawEvents times v).2.sum
      ∧ (drawEvents times v).1.totalmeasurecount
          = (v.totalmeasurecount + (drawEvents times v).2.length) % 2 ^ 64 := by
  induction times with
  | nil =>
    intro v hf hc
    simp only [drawEvents, List.sum_nil, add_zero, List.length_nil]
    exact ⟨hf, trivial, (Nat.mod_eq_of_lt hc).symm⟩
  | cons now later ih =>
    intro v hf hc
    by_cases hd : now - v.before > 3.5
    · have hstep := drawEvent_closing now v hf hd
      have hlt : sizeInc v.totalmeasurecount < 2 ^ 64 := Nat.mod_lt _ (by norm_num)
      obtain ⟨h1, h2, h3⟩ := ih (drawEvent now v).1 (by rw [drawEvent_fps]; exact hf)
        (by rw [hstep]; exact hlt)
      simp only [drawEvents, hstep] at h1 h2 h3 ⊢
      refine ⟨h1, ?_, ?_⟩
      · rw [h2]
        simp only [List.sum_cons]
        ring
      · rw [h3]
        simp only [List.length_cons, sizeInc]
        omega
    · have hstep := drawEvent_not_closing now v hf hd
      obtain ⟨h1, h2, h3⟩ := ih (drawEvent now v).1 (by rw [drawEvent_fps]; exact hf)
        (by rw [hstep]; exact hc)
      simp only [drawEvents, hstep] at h1 h2 h3 ⊢
      exact ⟨h1, h2, h3⟩

end FrameRate

/-- C6, as stated, fails: with 70 frames counted and exactly 3.5 seconds
elapsed, `drawEvent` prints nothing, accumulates nothing and leaves the window
open; it only counts the frame. -/
theorem C6_counterexample :
    measuring70.fps = true ∧ measuring70.frames = 70 ∧ (3.5 : ℚ) - measuring70.before = 3.5
    ∧ (drawEvent 3.5 measuring70).2 = none
    ∧ (drawEvent 3.5 measuring70).1.totalfps = 0
    ∧ (drawEvent 3.5 measuring70).1.totalmeasurecount = 0
    ∧ (drawEvent 3.5 measuring70).1.frames = 71
    ∧ (drawEvent 3.5 measuring70).1.before = 0 := by
  have hd : ¬ (3.5 : ℚ) - measuring70.before > 3.5 := by norm_num [measuring70]
  rw [drawEvent_not_closing 3.5 measuring70 rfl hd]
  norm_num [measuring70, sizeInc]

/-- C6, amended. While measuring, a frame drawn when the time elapsed since the
window start is strictly more than 3.5 seconds closes the window: the rate
`frames / elapsed` is printed and added to the running sum, the window count is
incremented (as a 64-bit counter), the frame counter is reset to 0 and the
window start set to now; the frame being drawn is counted after that, so the
counter is 1 when `drawEvent` returns. At 3.5 seconds or less nothing is
printed or accumulated and the frame is only counted. -/
theorem C6_window_report {α : Type} [LinearOrderedField α] (now : α) (v : Viewer α)
    (hf : v.fps = true) :
    (3.5 < now - v.before →
      (drawEvent now v).2
          = some (.fpsLine v.frames (now - v.before) ((v.frames : α) / (now - v.before)))
      ∧ (drawEvent now v).1.totalfps = v.totalfps + (v.frames : α) / (now - v.before)
      ∧ (drawEvent now v).1.totalmeasurecount = (v.totalmeasurecount + 1) % 2 ^ 64
      ∧ (drawEvent now v).1.before = now
      ∧ (closeWindow now v).1.frames = 0
      ∧ (drawEvent now v).1.frames = 1
      ∧ (drawEvent now v).1.fps = true)
    ∧ (now - v.before ≤ 3.5 →
      drawEvent now v = ({ v with frames := (v.frames + 1) % 2 ^ 64 }, none)) := by
  constructor
  · intro hd
    rw [drawEvent_closing now v hf hd]
    simp [closeWindow, hf, hd, sizeInc]
  · intro hd
    rw [drawEvent_not_closing now v hf (not_lt.mpr hd)]
    rfl

/-- Witness of the amended C6: 70 frames counted, 4 seconds elapsed, rate
`70 / 4`. -/
theorem C6_window_report_witness :
    measuring70.fps = true ∧ 3.5 < (4 : ℚ) - measuring70.before
    ∧ (drawEvent 4 measuring70).2 = some (.fpsLine 70 4 (35 / 2))
    ∧ (drawEvent 4 measuring70).1.totalfps = 35 / 2
    ∧ (drawEvent 4 measuring70).1.totalmeasurecount = 1
    ∧ (drawEvent 4 measuring70).1.frames = 1 := by
  have hd : 3.5 < (4 : ℚ) - measuring70.before := by norm_num [measuring70]
  have h := (C6_window_report 4 measuring70 rfl).1 hd
  refine ⟨rfl, hd, ?_, ?_, ?_, ?_⟩
  · rw [h.1]; norm_num [measuring70]
  · rw [h.2.1]; norm_num [measuring70]
  · rw [h.2.2.1]; norm_num [measuring70]
  · exact h.2.2.2.2.2.1

/-- C7. Pressing End while measuring prints the running average
`totalfps / totalmeasurecount`, switches measuring off and clears the frame
counter, the window count and the sum; and when measuring was switched on
(from `w`), frames were drawn of which exactly one closed a window, with rate
`r`, and End is pressed again, the average printed is `r` over one measure. -/
theorem C7_toggle_off {α : Type} [LinearOrderedField α] (PI now start : α) (times : List α)
    (v w : Viewer α) (r : α) (hv : v.fps = true) (hw : w.fps = false)
    (hone : (drawEvents times (keyEvent PI start Key.End w).1).2 = [r]) :
    (keyEvent PI now Key.End v).2
        = some (.averageLine v.totalmeasurecount (divBySize v.totalfps v.totalmeasurecount))
    ∧ (v.totalmeasurecount ≠ 0 →
        divBySize v.totalfps v.totalmeasurecount
          = some (v.totalfps / (v.totalmeasurecount : α)))
    ∧ (keyEvent PI now Key.End v).1
        = { v with fps := false, frames := 0, totalmeasurecount := 0, totalfps := 0 }
    ∧ (keyEvent PI now Key.End (drawEvents times (keyEvent PI start Key.End w).1).1).2
        = some (.averageLine 1 (some r)) := by
  refine ⟨keyEvent_End_measuring PI now v hv, ?_, by simp [keyEvent, hv], ?_⟩
  · intro hc
    simp [divBySize, hc]
  · have hon : (keyEvent PI start Key.End w).1
        = { w with before := start, fps := true, frames := 0, totalmeasurecount := 0,
                   totalfps := 0 } := by
      simp [keyEvent, hw]
    obtain ⟨h1, h2, h3⟩ := drawEvents_totals times (keyEvent PI start Key.End w).1
      (by rw [hon]) (by rw [hon]; norm_num)
    rw [hone] at h2 h3
    rw [hon] at h2 h3
    simp only [List.sum_cons, List.sum_nil, add_zero, zero_add, List.length_cons,
      List.length_nil] at h2 h3
    have h3' : (drawEvents times (keyEvent PI start Key.End w).1).1.totalmeasurecount = 1 := by
      rw [hon]; rw [h3]; norm_num
    have h2' : (drawEvents times (keyEvent PI start Key.End w).1).1.totalfps = r := by
      rw [hon]; exact h2
    rw [keyEvent_End_measuring PI now _ h1, h2', h3']
    simp [divBySize]

/-- Witness of C7: measuring is switched on at time 0, frames are drawn at
times 1, 2, 4 and 5 (the one at 4 closes a window of 2 frames, rate `1 / 2`),
and End at time 6 prints the average `1 / 2` over one measure. -/
theorem C7_toggle_off_witness :
    (drawEvents [1, 2, 4, 5] (keyEvent 3 0 Key.End idle).1).2 = [1 / 2]
    ∧ (keyEvent 3 6 Key.End (drawEvents [1, 2, 4, 5] (keyEvent 3 0 Key.End idle).1).1).2
        = some (.averageLine 1 (some (1 / 2))) := by
  have hone : (drawEvents [1, 2, 4, 5] (keyEvent 3 0 Key.End idle).1).2 = [(1 / 2 : ℚ)] := by
    norm_num [drawEvents, drawEvent, closeWindow, countFrame, keyEvent, idle, sizeInc]
  exact ⟨hone, (C7_toggle_off 3 6 0 [1, 2, 4, 5] measuring70 idle (1 / 2) rfl rfl hone).2.2.2⟩

/-! ### Wheel dolly -/

section Dolly

variable {α : Type} [LinearOrderedField α]

theorem mouseEvent_wheelUp (sqrt : α → α) (pos : Vector2 Int) (v : Viewer α) :
    mouseEvent sqrt MouseButton.WheelUp MouseState.Down pos v
      = { v with cameraZ := v.cameraZ + (v.cameraZ - v.near) * (1 - 1 / 0.85) } := by
  simp [mouseEvent, wheelDistance, Viewer.translateZ]

theorem mouseEvent_wheelDown (sqrt : α → α) (pos : Vector2 Int) (v : Viewer α) :
    mouseEvent sqrt MouseButton.WheelDown MouseState.Down pos v
      = { v with cameraZ := v.cameraZ + (v.cameraZ - v.near) * (1 - 0.85) } := by
  simp [mouseEvent, wheelDistance, Viewer.translateZ]

theorem wheelUp_distance (sqrt : α → α) (pos : Vector2 Int) (v : Viewer α) :
    (mouseEvent sqrt MouseButton.WheelUp MouseState.Down pos v).distance
      = v.distance * (14 / 17) := by
  rw [mouseEvent_wheelUp]
  simp only [Viewer.distance]
  norm_num
  ring

theorem wheelDown_distance (sqrt : α → α) (pos : Vector2 Int) (v : Viewer α) :
    (mouseEvent sqrt MouseButton.WheelDown MouseState.Down pos v).distance
      = v.distance * (23 / 20) := by
  rw [mouseEvent_wheelDown]
  simp only [Viewer.distance]
  norm_num
  ring

theorem wheelPresses_up_distance (sqrt : α → α) (pos : Vector2 Int) (k : Nat) :
    ∀ v : Viewer α,
      (wheelPresses sqrt MouseButton.WheelUp pos k v).distance = v.distance * (14 / 17) ^ k := by
  induction k with
  | zero => intro v; simp [wheelPresses]
  | succ k ih =>
    intro v
    rw [wheelPresses, ih, wheelUp_distance, pow_succ]
    ring

end Dolly

/-! ### Wheel dolly in binary32 -/

theorem log2Aux_bounds : ∀ fuel n : Nat, n ≤ fuel → 0 < n →
    2 ^ log2Aux fuel n ≤ n ∧ n < 2 ^ (log2Aux fuel n + 1) := by
  intro fuel
  induction fuel with
  | zero => intro n hn hpos; omega
  | succ fuel ih =>
    intro n hn hpos
    by_cases h2 : 2 ≤ n
    · obtain ⟨hlo, hhi⟩ := ih (n / 2) (by omega) (by omega)
      simp only [log2Aux, if_pos h2]
      rw [pow_succ, pow_succ]
      constructor <;> omega
    · simp only [log2Aux, if_neg h2]
      constructor <;> omega

/-- For `n > 0`, `log2 n` is the position of the highest set bit of `n`. -/
theorem log2_bounds (n : Nat) (hpos : 0 < n) : 2 ^ log2 n ≤ n ∧ n < 2 ^ (log2 n + 1) :=
  log2Aux_bounds n n (le_refl n) hpos

/-- Known binary32 values: `0.85f` and `0.001f` (bit patterns `0x3F59999A`,
`0x3A83126F`), the two wheel factors, a tie going to the even neighbour, and a
subnormal number. -/
theorem binary32_values :
    binary32 0.85 = 14260634 / 2 ^ 24
    ∧ binary32 0.001 = 8589935 / 2 ^ 33
    ∧ binary32 (1 - binary32 (1 / binary32 0.85)) = -(740171 / 2 ^ 22)
    ∧ binary32 (1 - binary32 0.85) = 2516582 / 2 ^ 24
    ∧ binary32 (1 + 1 / 2 ^ 24) = 1
    ∧ binary32 (1 + 3 / 2 ^ 24) = 1 + 1 / 2 ^ 22
    ∧ binary32 (3 / 2 ^ 150) = 2 / 2 ^ 149
    ∧ binary32 5 = 5 :=
  ⟨by decide!, by decide!, by decide!, by decide!, by decide!, by decide!, by decide!,
    by decide!⟩

/-- C8, as stated, fails in the binary32 arithmetic of the code. The camera of
`stalled` has `near = 0.001f`, a binary32 `z` and `z - near = 2 ^ (-32) > 0`; it
is the camera after 121 wheel-up presses from the constructor's `z = 5`. There
a wheel-up press computes a non-zero translation, yet `z + dz` rounds back to
`z`: the distance is not smaller, and after 122 presses it is what it was after
121. A wheel-down press does not move the camera either. -/
theorem C8_counterexample :
    stalled.near = binary32 0.001
    ∧ binary32 stalled.cameraZ = stalled.cameraZ
    ∧ stalled.cameraZ - stalled.near = 1 / 2 ^ 32
    ∧ 0 < stalled.cameraZ - stalled.near
    ∧ wheelPressesBinary32 MouseButton.WheelUp 121 constructed = stalled
    ∧ wheelDistanceBinary32 MouseButton.WheelUp stalled = -(740171 / 2 ^ 22) / 2 ^ 32
    ∧ wheelEventBinary32 MouseButton.WheelUp MouseState.Down stalled = stalled
    ∧ ¬ (wheelEventBinary32 MouseButton.WheelUp MouseState.Down stalled).distance
          < stalled.distance
    ∧ (wheelPressesBinary32 MouseButton.WheelUp 122 constructed).distance
        = (wheelPressesBinary32 MouseButton.WheelUp 121 constructed).distance
    ∧ wheelEventBinary32 MouseButton.WheelDown MouseState.Down stalled = stalled
    ∧ ¬ stalled.distance
          < (wheelEventBinary32 MouseButton.WheelDown MouseState.Down stalled).distance :=
  ⟨by decide!, by decide!, by decide!, by decide!, by decide!, by decide!, by decide!,
    by decide!, by decide!, by decide!, by decide!⟩

/-- C8, amended. In exact arithmetic (the rounding of `GLfloat` left out): with
the camera in front of the near plane (`z - near > 0`), a wheel-up press
translates the camera by `(z - near) * (1 - 1/0.85)`; the new distance is
positive, smaller than the old one, and after `k` presses it is the initial
distance times `(14/17) ^ k`, still positive. A wheel-down press translates by
`(z - near) * (1 - 0.85)` and makes the distance larger. A wheel event with
state Up changes nothing. -/
theorem C8_dolly {α : Type} [LinearOrderedField α] (sqrt : α → α) (pos : Vector2 Int)
    (v : Viewer α) (hd : 0 < v.cameraZ - v.near) :
    mouseEvent sqrt MouseButton.WheelUp MouseState.Down pos v
        = { v with cameraZ := v.cameraZ + (v.cameraZ - v.near) * (1 - 1 / 0.85) }
    ∧ 0 < (mouseEvent sqrt MouseButton.WheelUp MouseState.Down pos v).distance
    ∧ (mouseEvent sqrt MouseButton.WheelUp MouseState.Down pos v).distance < v.distance
    ∧ (∀ k : Nat,
        (wheelPresses sqrt MouseButton.WheelUp pos k v).distance = v.distance * (14 / 17) ^ k
        ∧ 0 < (wheelPresses sqrt MouseButton.WheelUp pos k v).distance)
    ∧ mouseEvent sqrt MouseButton.WheelDown MouseState.Down pos v
        = { v with cameraZ := v.cameraZ + (v.cameraZ - v.near) * (1 - 0.85) }
    ∧ v.distance < (mouseEvent sqrt MouseButton.WheelDown MouseState.Down pos v).distance
    ∧ mouseEvent sqrt MouseButton.WheelUp MouseState.Up pos v = v
    ∧ mouseEvent sqrt MouseButton.WheelDown MouseState.Up pos v = v := by
  have hpos : 0 < v.distance := hd
  refine ⟨?_, ?_, ?_, ?_, ?_, ?_, ?_, ?_⟩
  · exact mouseEvent_wheelUp sqrt pos v
  · rw [wheelUp_distance]
    positivity
  · rw [wheelUp_distance]
    linarith
  · intro k
    rw [wheelPresses_up_distance]
    exact ⟨rfl, by positivity⟩
  · exact mouseEvent_wheelDown sqrt pos v
  · rw [wheelDown_distance]
    linarith
  · simp [mouseEvent]
  · simp [mouseEvent]

/-- Witness of C8 on the camera as the constructor leaves it, `z = 5` and
`near = 0.001`. -/
theorem C8_dolly_witness :
    0 < idle.cameraZ - idle.near
    ∧ (mouseEvent id MouseButton.WheelUp MouseState.Down ⟨0, 0⟩ idle).distance < idle.distance
    ∧ 0 < (mouseEvent id MouseButton.WheelUp MouseState.Down ⟨0, 0⟩ idle).distance
    ∧ (wheelPresses id MouseButton.WheelUp ⟨0, 0⟩ 3 idle).distance
        = idle.distance * (14 / 17) ^ 3 :=
  have h := C8_dolly id ⟨0, 0⟩ idle (by norm_num [idle])
  ⟨by norm_num [idle], h.2.2.1, h.2.1, (h.2.2.2.1 3).1⟩

/-- C9 at a failing input: on the camera as the constructor leaves it
(`z - near = 4.999`) a wheel-down press translates by `0.15 * 4.999`, but a
wheel-up press translates by `-(3/17) * 4.999`, whose magnitude is not
`0.15 * 4.999`. -/
theorem C9_wheel_up_step :
    idle.cameraZ - idle.near = 4.999
    ∧ wheelDistance MouseButton.WheelDown idle = 0.15 * 4.999
    ∧ wheelDistance MouseButton.WheelUp idle = -(3 / 17) * 4.999
    ∧ |wheelDistance MouseButton.WheelUp idle| ≠ 0.15 * 4.999
    ∧ (mouseEvent id MouseButton.WheelUp MouseState.Down ⟨0, 0⟩ idle).cameraZ
        = idle.cameraZ - (3 / 17) * 4.999 := by
  have hup : wheelDistance MouseButton.WheelUp idle = -(3 / 17) * 4.999 := by
    norm_num [wheelDistance, idle]
  have hdown : wheelDistance MouseButton.WheelDown idle = 0.15 * 4.999 := by
    simp only [wheelDistance, idle]
    rw [if_neg (by decide)]
    norm_num
  refine ⟨by norm_num [idle], hdown, hup, ?_, ?_⟩
  · rw [hup]
    norm_num [abs_of_neg]
  · rw [mouseEvent_wheelUp]
    norm_num [idle]

/-! ### Arcball -/

section Arcball

variable {α : Type} [LinearOrderedField α]

theorem cross_self (a : Vector3 α) : Vector3.cross a a = Vector3.zero := by
  simp only [Vector3.cross, Vector3.zero]
  ext <;> simp [mul_comm]

theorem positionOnSphereResult_outside (sqrt : α → α) (viewport pos : Vector2 Int)
    (hlen : 1 < (normalizedPosition viewport pos : Vector2 α).length sqrt) :
    positionOnSphereResult sqrt viewport pos
      = ⟨(normalizedPosition viewport pos : Vector2 α).x,
         -(normalizedPosition viewport pos : Vector2 α).y, 0⟩ := by
  simp [positionOnSphereResult, hlen, Vector3.convert, Vector3.ofVector2, Vector3.setY]

theorem positionOnSphereResult_inside (sqrt : α → α) (viewport pos : Vector2 Int)
    (hlen : (normalizedPosition viewport pos : Vector2 α).length sqrt ≤ 1) :
    positionOnSphereResult sqrt viewport pos
      = ⟨(normalizedPosition viewport pos : Vector2 α).x,
         -(normalizedPosition viewport pos : Vector2 α).y,
         1 - (normalizedPosition viewport pos : Vector2 α).length sqrt⟩ := by
  simp [positionOnSphereResult, not_lt.mpr hlen, Vector3.ofVector2, Vector3.setY]

end Arcball

/-- C4. For a viewport with non-zero width and height and a pixel whose
normalized point has planar length greater than 1, in real arithmetic: the
vector that `positionOnSphere` normalizes is not zero (its length is not 0),
and the vector returned has length exactly 1 and a non-negative `z`. -/
theorem C4_outside_unit_disk (viewport pos : Vector2 Int) (hw : viewport.x ≠ 0)
    (hh : viewport.y ≠ 0)
    (hlen : 1 < (normalizedPosition viewport pos : Vector2 ℝ).length Real.sqrt) :
    (positionOnSphere Real.sqrt viewport pos).length Real.sqrt = 1
    ∧ 0 ≤ (positionOnSphere Real.sqrt viewport pos).z
    ∧ positionOnSphereResult Real.sqrt viewport pos ≠ Vector3.zero
    ∧ (positionOnSphereResult Real.sqrt viewport pos).length Real.sqrt ≠ 0 := by
  have hres := positionOnSphereResult_outside Real.sqrt viewport pos hlen
  generalize hp : (normalizedPosition viewport pos : Vector2 ℝ) = p at hlen hres
  obtain ⟨x, y⟩ := p
  simp only [Vector2.length, Vector2.dot] at hlen
  have hnn : 0 ≤ x * x + y * y := add_nonneg (mul_self_nonneg x) (mul_self_nonneg y)
  have hL : (positionOnSphereResult Real.sqrt viewport pos).length Real.sqrt
      = Real.sqrt (x * x + y * y) := by
    rw [hres]
    simp only [Vector3.length, Vector3.dot]
    congr 1
    ring
  have hL0 : Real.sqrt (x * x + y * y) ≠ 0 := by linarith
  have hsq : Real.sqrt (x * x + y * y) * Real.sqrt (x * x + y * y) = x * x + y * y :=
    Real.mul_self_sqrt hnn
  refine ⟨?_, ?_, ?_, ?_⟩
  · simp only [positionOnSphere, Vector3.normalized, hL]
    rw [hres]
    simp only [Vector3.length, Vector3.dot]
    have hunit : ∀ s : ℝ, s ≠ 0 → s * s = x * x + y * y →
        x / s * (x / s) + -y / s * (-y / s) + 0 / s * (0 / s) = 1 := by
      intro s hs0 hs
      field_simp
      linarith
    rw [hunit _ hL0 hsq, Real.sqrt_one]
  · simp only [positionOnSphere, Vector3.normalized]
    rw [hres]
    simp
  · rw [hres]
    intro h0
    have hx : x = 0 := congrArg Vector3.x h0
    have hy : -y = 0 := congrArg Vector3.y h0
    have hy0 : y = 0 := by linarith
    apply hL0
    rw [hx, hy0]
    simp
  · rw [hL]
    exact hL0

/-- Witness of C4: viewport 2 by 2 and pixel (3, 1), normalized to (2, 0). -/
theorem C4_outside_unit_disk_witness :
    (1 : ℝ) < (normalizedPosition ⟨2, 2⟩ ⟨3, 1⟩ : Vector2 ℝ).length Real.sqrt
    ∧ (positionOnSphere Real.sqrt ⟨2, 2⟩ ⟨3, 1⟩).length Real.sqrt = 1
    ∧ 0 ≤ (positionOnSphere Real.sqrt ⟨2, 2⟩ ⟨3, 1⟩).z :=
  have hlen : (1 : ℝ) < (normalizedPosition ⟨2, 2⟩ ⟨3, 1⟩ : Vector2 ℝ).length Real.sqrt := by
    simp only [normalizedPosition, Vector2.length, Vector2.dot]
    rw [Real.lt_sqrt (by norm_num)]
    norm_num
  have h := C4_outside_unit_disk ⟨2, 2⟩ ⟨3, 1⟩ (by decide) (by decide) hlen
  ⟨hlen, h.1, h.2.1⟩

/-- C5. Pointer-move idempotence, in real arithmetic: from any state and for
any pixel, a second `mouseMoveEvent` at the same pixel (the viewport is the
same, no handler in between) applies no rotation and leaves the state, so
`previousPosition`, as the first one left it. -/
theorem C5_move_idempotent (pos : Vector2 Int) (v : Viewer ℝ) :
    (mouseMoveEvent Real.sqrt Real.arccos pos
        (mouseMoveEvent Real.sqrt Real.arccos pos v).1).2 = none
    ∧ (mouseMoveEvent Real.sqrt Real.arccos pos
        (mouseMoveEvent Real.sqrt Real.arccos pos v).1).1
      = (mouseMoveEvent Real.sqrt Real.arccos pos v).1
    ∧ (mouseMoveEvent Real.sqrt Real.arccos pos
        (mouseMoveEvent Real.sqrt Real.arccos pos v).1).1.previousPosition
      = (mouseMoveEvent Real.sqrt Real.arccos pos v).1.previousPosition := by
  have key : mouseMoveEvent Real.sqrt Real.arccos pos
        (mouseMoveEvent Real.sqrt Real.arccos pos v).1
      = ((mouseMoveEvent Real.sqrt Real.arccos pos v).1, none) := by
    by_cases hc : v.previousPosition.length Real.sqrt < 0.001
        ∨ (Vector3.cross v.previousPosition
            (positionOnSphere Real.sqrt v.viewport pos)).length Real.sqrt < 0.001
    · have h1 : mouseMoveEvent Real.sqrt Real.arccos pos v = (v, none) := by
        simp only [mouseMoveEvent]
        rw [if_pos hc]
      rw [h1]
      exact h1
    · have h1 : mouseMoveEvent Real.sqrt Real.arccos pos v
          = ({ v with previousPosition := positionOnSphere Real.sqrt v.viewport pos },
              some (.rotate
                (Real.arccos (v.previousPosition.dot (positionOnSphere Real.sqrt v.viewport pos)))
                (Vector3.cross v.previousPosition (positionOnSphere Real.sqrt v.viewport pos))
                true)) := by
        simp only [mouseMoveEvent]
        rw [if_neg hc]
      rw [h1]
      simp only [mouseMoveEvent]
      rw [if_pos]
      right
      rw [cross_self]
      simp only [Vector3.length, Vector3.dot, Vector3.zero]
      norm_num
  rw [key]
  exact ⟨rfl, rfl, rfl⟩

/-- C10, as stated, fails: for viewport 10 by 10 and pixel (8, 5) the
normalized point is (3/5, 0), of planar length 3/5; the vector normalized is
(3/5, -0, 2/5), whose `z` is `1 - length`, while `sqrt (1 - length^2)` is
4/5. -/
theorem C10_counterexample :
    (normalizedPosition ⟨10, 10⟩ ⟨8, 5⟩ : Vector2 ℝ) = ⟨3 / 5, 0⟩
    ∧ (normalizedPosition ⟨10, 10⟩ ⟨8, 5⟩ : Vector2 ℝ).length Real.sqrt = 3 / 5
    ∧ positionOnSphereResult Real.sqrt ⟨10, 10⟩ ⟨8, 5⟩ = ⟨3 / 5, -0, 2 / 5⟩
    ∧ Real.sqrt (1 - ((normalizedPosition ⟨10, 10⟩ ⟨8, 5⟩ : Vector2 ℝ).length Real.sqrt) ^ 2)
        = 4 / 5
    ∧ positionOnSphereResult Real.sqrt ⟨10, 10⟩ ⟨8, 5⟩
        ≠ ⟨(normalizedPosition ⟨10, 10⟩ ⟨8, 5⟩ : Vector2 ℝ).x,
           -(normalizedPosition ⟨10, 10⟩ ⟨8, 5⟩ : Vector2 ℝ).y,
           Real.sqrt
            (1 - ((normalizedPosition ⟨10, 10⟩ ⟨8, 5⟩ : Vector2 ℝ).length Real.sqrt) ^ 2)⟩ := by
  have hp : (normalizedPosition ⟨10, 10⟩ ⟨8, 5⟩ : Vector2 ℝ) = ⟨3 / 5, 0⟩ := by
    simp only [normalizedPosition]
    ext <;> norm_num
  have hl : (normalizedPosition ⟨10, 10⟩ ⟨8, 5⟩ : Vector2 ℝ).length Real.sqrt = 3 / 5 := by
    rw [hp]
    simp only [Vector2.length, Vector2.dot]
    rw [show ((3 : ℝ) / 5 * (3 / 5) + 0 * 0) = (3 / 5) ^ 2 by norm_num]
    exact Real.sqrt_sq (by norm_num)
  have hr : positionOnSphereResult Real.sqrt ⟨10, 10⟩ ⟨8, 5⟩ = (⟨3 / 5, -0, 2 / 5⟩ : Vector3 ℝ) := by
    rw [positionOnSphereResult_inside Real.sqrt ⟨10, 10⟩ ⟨8, 5⟩ (by rw [hl]; norm_num), hl, hp]
    ext <;> norm_num
  have hs : Real.sqrt
      (1 - ((normalizedPosition ⟨10, 10⟩ ⟨8, 5⟩ : Vector2 ℝ).length Real.sqrt) ^ 2) = 4 / 5 := by
    rw [hl, show (1 - ((3 : ℝ) / 5) ^ 2) = (4 / 5) ^ 2 by norm_num]
    exact Real.sqrt_sq (by norm_num)
  refine ⟨hp, hl, hr, hs, ?_⟩
  rw [hr, hs]
  intro h
  have hz : (2 : ℝ) / 5 = 4 / 5 := congrArg Vector3.z h
  norm_num at hz

/-- C10, amended. For a viewport with non-zero width and height and a pixel
whose normalized point `(x, y)` has planar length at most 1, the vector that
`positionOnSphere` normalizes is `(x, -y, z)` with `z = 1 - length`, and the
value returned is that vector normalized. -/
theorem C10_inside_unit_disk {α : Type} [LinearOrderedField α] (sqrt : α → α)
    (viewport pos : Vector2 Int) (hw : viewport.x ≠ 0) (hh : viewport.y ≠ 0)
    (hlen : (normalizedPosition viewport pos : Vector2 α).length sqrt ≤ 1) :
    positionOnSphereResult sqrt viewport pos
      = ⟨(normalizedPosition viewport pos : Vector2 α).x,
         -(normalizedPosition viewport pos : Vector2 α).y,
         1 - (normalizedPosition viewport pos : Vector2 α).length sqrt⟩
    ∧ positionOnSphere sqrt viewport pos
      = Vector3.normalized sqrt
          ⟨(normalizedPosition viewport pos : Vector2 α).x,
           -(normalizedPosition viewport pos : Vector2 α).y,
           1 - (normalizedPosition viewport pos : Vector2 α).length sqrt⟩ := by
  have h := positionOnSphereResult_inside sqrt viewport pos hlen
  exact ⟨h, by rw [positionOnSphere, h]⟩

/-- Witness of the amended C10: viewport 10 by 10 and pixel (5, 5), the centre,
normalized to (0, 0) of length 0. -/
theorem C10_inside_unit_disk_witness :
    (normalizedPosition ⟨10, 10⟩ ⟨5, 5⟩ : Vector2 ℝ).length Real.sqrt ≤ 1
    ∧ positionOnSphereResult Real.sqrt ⟨10, 10⟩ ⟨5, 5⟩
      = ⟨(normalizedPosition ⟨10, 10⟩ ⟨5, 5⟩ : Vector2 ℝ).x,
         -(normalizedPosition ⟨10, 10⟩ ⟨5, 5⟩ : Vector2 ℝ).y,
         1 - (normalizedPosition ⟨10, 10⟩ ⟨5, 5⟩ : Vector2 ℝ).length Real.sqrt⟩ :=
  have hlen : (normalizedPosition ⟨10, 10⟩ ⟨5, 5⟩ : Vector2 ℝ).length Real.sqrt ≤ 1 := by
    simp only [normalizedPosition, Vector2.length, Vector2.dot]
    norm_num
  ⟨hlen, (C10_inside_unit_disk Real.sqrt ⟨10, 10⟩ ⟨5, 5⟩ (by decide) (by decide) hlen).1⟩

end Magnum.Examples
